import Mathlib

/-!
Shallow embedding of `scripts/mapping_parser.py` (StrainFLAIR).

Python dictionaries are modelled as association lists that preserve Python's
insertion-order semantics: a fresh key is appended at the end, an assignment
to an existing key updates it in place, and `dict.pop` removes it.  Python
floats produced by the script's divisions are modelled exactly as rationals
(the script only ever divides integers obtained from the JSON input).
-/

namespace StrainFLAIR

/-- Association-list lookup, mirroring `d[k]` / `d.get(k)`. -/
def lookupA {α β : Type} [DecidableEq α] : List (α × β) → α → Option β
  | [], _ => none
  | (k, v) :: rest, x => if k = x then some v else lookupA rest x

/-- Mirror of Python's `k in d`. -/
def hasKeyA {α β : Type} [DecidableEq α] (l : List (α × β)) (x : α) : Bool :=
  (lookupA l x).isSome

/-- In-place update of an existing key (`d[k] = v` on a present key). -/
def setKeyA {α β : Type} [DecidableEq α] : List (α × β) → α → β → List (α × β)
  | [], _, _ => []
  | (k, v) :: rest, x, w => if k = x then (k, w) :: rest else (k, v) :: setKeyA rest x w

/-- Mirror of `d.pop(k)` (the value is discarded by the script). -/
def eraseKeyA {α β : Type} [DecidableEq α] : List (α × β) → α → List (α × β)
  | [], _ => []
  | (k, v) :: rest, x => if k = x then rest else (k, v) :: eraseKeyA rest x


/-- Exact rational division.  Every division the script performs inside the
mapping pipeline has integer operands (scores, lengths, counts), and is
modelled as `Rat.divInt`, which equals `(a : ℚ) / (b : ℚ)` (theorem
`divQ_eq_div` below) while staying evaluable by the kernel. -/
def divQ (a b : ℤ) : ℚ := Rat.divInt a b

/-! ### `reverse_complement` (mapping_parser.py, line 254) -/

/-- Complement of a single base as looked up in the script's `complement` dict.
Python raises `KeyError` on any other character; those inputs never occur in
the claims, the function is left as the identity there. -/
def complementChar (c : Char) : Char :=
  if c = 'A' then 'T'
  else if c = 'C' then 'G'
  else if c = 'G' then 'C'
  else if c = 'T' then 'A'
  else if c = 'N' then 'N'
  else c

/-- Function `reverse_complement(dna)`: reverse the string, complement each base. -/
def reverseComplement (dna : String) : String :=
  ⟨dna.data.reverse.map complementChar⟩

/-! ### The pangenome graph: `Node`, `Pangenome.edit_node`, `parse_graph` L lines -/

/-- A graph node (class `Node`).  `pathsCrossed` maps a path id to the list of
`(index, orientation)` pairs recorded for it. -/
structure PNode where
  ID : String
  sequence : String
  pathsCrossed : List (String × List (Nat × String))
  previous : List String
  next : List String
deriving DecidableEq, Repr

/-- The node dictionary of `Pangenome.__graph_dict["nodes"]`. -/
abbrev NodeDict := List (String × PNode)

/-- The `value` argument of `Pangenome.edit_node`: a `(path_id, (idx, ori))`
tuple for `"add_path"`, a node id for the adjacency edits. -/
inductive EditValue
  | pathInfo (path_id : String) (t : Nat × String)
  | nodeId (v : String)
deriving DecidableEq, Repr

/-- Apply `f` to the node stored under `key`; Python's attribute mutation on
the shared object.  A missing key raises `KeyError` in Python; here the dict
is returned unchanged (the claims only use present keys). -/
def updateNodeA : NodeDict → String → (PNode → PNode) → NodeDict
  | [], _, _ => []
  | (k, n) :: rest, key, f =>
    if k = key then (k, f n) :: rest else (k, n) :: updateNodeA rest key f

/-- Method `Pangenome.edit_node(edit_type, key, value)` (lines 188-201).  Note the
dispatch is on the literal strings `"add_path"`, `"add_next"`,
`"add_previous"`; any other `edit_type` falls into the final `pass`. -/
def edit_node (g : NodeDict) (edit_type : String) (key : String) (value : EditValue) : NodeDict :=
  if edit_type = "add_path" then
    match value with
    | .pathInfo pid t =>
      updateNodeA g key (fun n =>
        { n with pathsCrossed :=
            match lookupA n.pathsCrossed pid with
            | some l => setKeyA n.pathsCrossed pid (l ++ [t])
            | none => n.pathsCrossed ++ [(pid, [t])] })
    | .nodeId _ => g
  else if edit_type = "add_next" then
    match value with
    | .nodeId v => updateNodeA g key (fun n => { n with next := n.next ++ [v] })
    | .pathInfo _ _ => g
  else if edit_type = "add_previous" then
    match value with
    | .nodeId v => updateNodeA g key (fun n => { n with previous := n.previous ++ [v] })
    | .pathInfo _ _ => g
  else g

/-- The `L`-line branch of `parse_graph` (lines 296-302), for one link record
between nodes `id1` and `id2`.  It calls `edit_node` with the literal string
`"add_prev"` for the second edit, exactly as the source does.  Unknown node
ids raise `KeyError` in Python and are not modelled (the dict is returned
unchanged). -/
def processLink (g : NodeDict) (id1 id2 : String) : NodeDict :=
  match lookupA g id1, lookupA g id2 with
  | some node1, some node2 =>
    let g1 := if node2.ID ∉ node1.next then edit_node g "add_next" node1.ID (.nodeId node2.ID) else g
    let node2' := (lookupA g1 id2).getD node2
    if node1.ID ∉ node2'.previous then edit_node g1 "add_prev" node1.ID (.nodeId node2.ID) else g1
  | _, _ => g

/-! ### `generate_clusters_dict` (lines 306-337): the gene identity index -/

/-- The join `'-'.join(node_list)`. -/
def joinDash (l : List String) : String := String.intercalate "-" l

/-- One iteration of the `d_genes` loop in `generate_clusters_dict`
(lines 318-327): attach `cpath` to an existing gene whose signature matches
the forward-joined node list, else the reverse-joined node list, else create
a new gene.  Note the Python code reassigns `nodelist` to the reverse-joined
string before the final `else`, so the new entry is keyed by the value
`nodelist` holds at that point. -/
def d_genes_step (d : List (String × List String)) (nodes : List String) (cpath : String) :
    List (String × List String) :=
  let nodelist := joinDash nodes
  match lookupA d nodelist with
  | some l => setKeyA d nodelist (l ++ [cpath])
  | none =>
    let nodelist := joinDash nodes.reverse
    match lookupA d nodelist with
    | some l => setKeyA d nodelist (l ++ [cpath])
    | none => d ++ [(nodelist, [cpath])]

/-! ### Strain-level finalization (`get_abundance`, lines 728-733) -/

/-- Python's `int(...)` applied to a (rational-valued) float: truncation
toward zero. -/
def pyInt (q : ℚ) : ℤ := if 0 ≤ q then ⌊q⌋ else -⌊-q⌋

/-- Mean as `np.mean`, over rationals (`np.mean` of an empty list is NaN in Python;
here division by zero yields 0, the claims never use empty lists). -/
def npMeanQ (l : List ℚ) : ℚ := l.sum / (l.length : ℚ)

/-- The square of `np.std` (population variance, `ddof = 0`).  `np.std`
itself is the square root of this value; the square root is irrational in
general and is kept implicit. -/
def npVarQ (l : List ℚ) : ℚ := (l.map (fun x => (x - npMeanQ l) ^ 2)).sum / (l.length : ℚ)

/-- Lines 728-733 of `get_abundance`, for one `(strain, threshold)` record:
`abund_norm = [int(a) / int(b) for a, b in zip(abund, nb_copy)]`, then the
record's final abundance is `np.mean(abund_norm)` and its std is
`np.std(abund_norm)`.  The copy counts `b` are already integers, so `int(b)`
is the identity on them.  Returns (final abundance, std squared). -/
def finalizeStrain (abund : List ℚ) (nb_copy : List ℤ) : ℚ × ℚ :=
  let abund_norm := (abund.zip nb_copy).map (fun p => divQ (pyInt p.1) p.2)
  (npMeanQ abund_norm, npVarQ abund_norm)

/-- Modelled from the spec's words for comparison (claim C7): the same
finalization with the division taken exactly, neither operand truncated. -/
def finalizeStrain_spec (abund : List ℚ) (nb_copy : List ℤ) : ℚ × ℚ :=
  let abund_norm := (abund.zip nb_copy).map (fun p => p.1 / ((p.2 : ℚ)))
  (npMeanQ abund_norm, npVarQ abund_norm)

/-! ### vg mpmap JSON records -/

/-- One `edit` object of a mapping (`from_length`, `to_length`, optional
`sequence`).  Absent numeric fields are read as 0 by the script
(`edit.get("from_length", 0)`), which the plain `Nat` fields reflect. -/
structure MpEdit where
  from_length : Nat
  to_length : Nat
  seq : Option String
deriving DecidableEq, Repr, Inhabited

/-- The `position` object of a mapping node.  The script tests presence of
the `is_reverse` key (`'is_reverse' in node['position']`), a boolean here;
`offset` defaults to 0 when absent. -/
structure MpPosition where
  node_id : String
  offset : Nat
  is_reverse : Bool
deriving DecidableEq, Repr, Inhabited

/-- One node of `subpath[i]['path']['mapping']`. -/
structure MpMapping where
  position : MpPosition
  edit : List MpEdit
deriving DecidableEq, Repr, Inhabited

/-- One entry of the `subpath` array: its mapping nodes, the optional `next`
children array and the optional `score` (vg omits a zero score). -/
structure Subpath where
  mapping : List MpMapping
  next : Option (List Nat)
  score : Option Int
deriving DecidableEq, Repr, Inhabited

/-- A mapped alignment record as consumed by `BFS`: its `sequence`, its
`subpath` array, and the `start` (root) list, which `BFS` never reads. -/
structure Aln where
  name : String
  sequence : String
  subpath : List Subpath
  start : List Nat
deriving DecidableEq, Repr, Inhabited

/-! ### `get_variants` (lines 340-388) -/

/-- The second component of a yielded variant triple: an integer position
for substitutions and deletions, the composed string
`str(pos-1)+'-'+str(pos)+'_'+str(pos_bis)` for insertions. -/
inductive VPos
  | pos (p : Int)
  | ins (s : String)
deriving DecidableEq, Repr

/-- A `(node_id, position, character)` triple yielded by `get_variants`. -/
abbrev Variant := String × VPos × String

/-- The substitution loop (lines 359-364): one triple per character of
`edit['sequence']`, the character emitted as-is, the cursor moved by one per
character (down if `is_reverse`). -/
def substEmit (nid : String) (rev : Bool) : List Char → Int → List Variant
  | [], _ => []
  | c :: cs, pos =>
    (nid, VPos.pos pos, String.mk [c]) :: substEmit nid rev cs (if rev then pos - 1 else pos + 1)

/-- The deletion loop (lines 368-374): `from_length` triples carrying `' '`. -/
def delEmit (nid : String) (rev : Bool) : Nat → Int → List Variant
  | 0, _ => []
  | n + 1, pos =>
    (nid, VPos.pos pos, " ") :: delEmit nid rev n (if rev then pos - 1 else pos + 1)

/-- The insertion loop (lines 376-388): the cursor `pos` is left unchanged,
a secondary cursor `pos_bis` walks the inserted sequence, and only here the
emitted character is reverse-complemented when the orientation is reverse. -/
def insEmit (nid : String) (rev : Bool) (pos : Int) : List Char → Int → List Variant
  | [], _ => []
  | c :: cs, pos_bis =>
    let ch := if rev then reverseComplement (String.mk [c]) else String.mk [c]
    (nid, VPos.ins (toString (pos - 1) ++ "-" ++ toString pos ++ "_" ++ toString pos_bis), ch)
      :: insEmit nid rev pos cs (if rev then pos_bis - 1 else pos_bis + 1)

/-- One `edit` step of `get_variants`: dispatch on
`from_length == to_length` and on the presence of `sequence`, threading the
cursor and the emitted triples. -/
def editVar (nid : String) (rev : Bool) (st : Int × List Variant) (e : MpEdit) : Int × List Variant :=
  let pos := st.1
  if e.from_length = e.to_length then
    match e.seq with
    | none => ((if rev then pos - (e.from_length : Int) else pos + (e.from_length : Int)), st.2)
    | some s =>
      ((if rev then pos - (s.length : Int) else pos + (s.length : Int)),
        st.2 ++ substEmit nid rev s.data pos)
  else
    match e.seq with
    | none =>
      ((if rev then pos - (e.from_length : Int) else pos + (e.from_length : Int)),
        st.2 ++ delEmit nid rev e.from_length pos)
    | some s =>
      (pos, st.2 ++ insEmit nid rev pos s.data (if rev then (s.length : Int) - 1 else 0))

/-- The per-mapping-node part of `get_variants` (lines 341-345): the cursor
starts at `len(node_sequence)-1-offset` when `is_reverse`, else at `offset`. -/
def nodeVars (nodeLen : String → Nat) (mn : MpMapping) : List Variant :=
  let nid := mn.position.node_id
  let rev := mn.position.is_reverse
  let pos0 : Int :=
    if rev then (nodeLen nid : Int) - 1 - (mn.position.offset : Int) else (mn.position.offset : Int)
  (mn.edit.foldl (editVar nid rev) (pos0, [])).2

/-- Generator `get_variants(mapping_node)`: all triples yielded over the node's
mapping, in generator order.  `nodeLen` gives each pangenome node's sequence
length (`len(pangenome.get_node(node_id).sequence)`). -/
def get_variants (nodeLen : String → Nat) (sp : Subpath) : List Variant :=
  sp.mapping.foldl (fun acc mn => acc ++ nodeVars nodeLen mn) []

/-! ### `BFS` (lines 390-505) -/

/-- A path tuple stored in `current_paths`:
`(path, read_len, score, nb_match, nb_aligned)`. -/
structure PTuple where
  path : List Nat
  len : Nat
  score : Int
  nmatch : Nat
  naligned : Nat
deriving DecidableEq, Repr, Inhabited

/-- The triple `(read_len, nb_match, nb_aligned)` accumulated over a subpath's mapping
(lines 405-411 and 442-448). -/
def spStats (sp : Subpath) : Nat × Nat × Nat :=
  sp.mapping.foldl (fun acc mn =>
    mn.edit.foldl (fun a e =>
      (a.1 + e.to_length,
        a.2.1 + (if e.from_length = e.to_length ∧ e.seq = none then e.to_length else 0),
        a.2.2 + min e.from_length e.to_length)) acc) (0, 0, 0)

/-- The tuple `([start], read_len, score, nb_match, nb_aligned)` seeded for
subpath index `i` (line 417). -/
def seedTuple (i : Nat) (sp : Subpath) : PTuple :=
  ⟨[i], (spStats sp).1, sp.score.getD 0, (spStats sp).2.1, (spStats sp).2.2⟩

/-- The loop state of `BFS`: the node `queue` and the insertion-ordered
`current_paths` dictionary. -/
structure BfsState where
  queue : List Nat
  cur : List (Nat × List PTuple)
deriving DecidableEq, Repr

/-- The initialization loop `for start in range(len(subpath))`
(lines 399-419) run up to `n`.  Every index in range is seeded — the
record's `start` list is never consulted.  (The `try/except IndexError`
around the body can never fire on the indexing of `subpath` itself since
`start` stays in range.) -/
def bfsInitFold (sps : List Subpath) (n : Nat) : BfsState :=
  (List.range n).foldl
    (fun s i =>
      let q := s.queue ++ [i]
      let cur0 := if hasKeyA s.cur i then s.cur else s.cur ++ [(i, [])]
      ⟨q, setKeyA cur0 i (((lookupA cur0 i).getD []) ++ [seedTuple i (sps.getD i default)])⟩)
    ⟨[], []⟩

/-- State of `queue` and `current_paths` after the initialization loop. -/
def bfsInit (sps : List Subpath) : BfsState := bfsInitFold sps sps.length

/-- Lines 464-475: insert one candidate tuple `u` into the list of paths
ending at a child node.  A strictly better score replaces the list, an
equal score is appended, a worse one is dropped; the first tuple into an
empty list is kept unconditionally. -/
def updateChildList : List PTuple → PTuple → List PTuple
  | [], u => [u]
  | h :: t, u =>
    let best := h.score
    let l1 := if best < u.score then [u] else h :: t
    if u.score = best then l1 ++ [u] else l1

/-- Lines 432-475 for a single `child` of the popped node `c`: enqueue the
child if absent, then extend every path ending at `c` by the child and merge
each extension with `updateChildList`. -/
def relaxChild (sps : List Subpath) (c : Nat) (s : BfsState) (child : Nat) : BfsState :=
  let q := if child ∈ s.queue then s.queue else s.queue ++ [child]
  let st := spStats (sps.getD child default)
  let cs := (sps.getD child default).score.getD 0
  let parents := (lookupA s.cur c).getD []
  let cur0 := if hasKeyA s.cur child then s.cur else s.cur ++ [(child, [])]
  let newList := parents.foldl
    (fun cl t =>
      updateChildList cl
        ⟨t.path ++ [child], t.len + st.1, t.score + cs, t.nmatch + st.2.1, t.naligned + st.2.2⟩)
    ((lookupA cur0 child).getD [])
  ⟨q, setKeyA cur0 child newList⟩

/-- One iteration of `while queue` (lines 425-477) for the popped node `c`
(already removed from `s.queue` by the caller).  A node with no `next` field
or whose paths all exhaust the read is left as a final group; otherwise its
children are relaxed and its own entry is popped from `current_paths`. -/
def processCurrent (sps : List Subpath) (target : Nat) (c : Nat) (s : BfsState) : BfsState :=
  let l := (lookupA s.cur c).getD []
  if (sps.getD c default).next = none ∨ l.all (fun t => t.len = target) then s
  else
    let s1 := ((sps.getD c default).next.getD []).foldl (relaxChild sps c) s
    ⟨s1.queue, eraseKeyA s1.cur c⟩

/-- The `while queue` loop with explicit fuel (the Python loop terminates on
the DAG inputs vg produces; any sufficiently large fuel reaches the same
fixed point). -/
def bfsLoop (sps : List Subpath) (target : Nat) : Nat → BfsState → BfsState
  | 0, s => s
  | fuel + 1, s =>
    match s.queue with
    | [] => s
    | c :: rest => bfsLoop sps target fuel (processCurrent sps target c ⟨rest, s.cur⟩)

/-- The result object built per surviving tuple (class `Alignment`):
per-node aligned fraction, variant triples, consumed read length, score,
identity. -/
structure Alignment where
  nodes : List (String × ℚ)
  variants : List Variant
  len : Nat
  score : Int
  identity : ℚ
deriving DecidableEq, Repr, Inhabited

/-- Lines 492-498: add `ab` to the first occurrence of `nid` in the
alignment's node list (`np.where` picks the first match), else append. -/
def addAbundFirst : List (String × ℚ) → String → ℚ → List (String × ℚ)
  | [], nid, ab => [(nid, ab)]
  | (k, v) :: rest, nid, ab =>
    if k = nid then (k, v + ab) :: rest else (k, v) :: addAbundFirst rest nid ab

/-- Lines 485-498 for one mapping node: its aligned fraction
`sum(min(from_len, to_len)) / len(node_sequence)` merged into the node list. -/
def mappingAbund (nodeLen : String → Nat) (nodes : List (String × ℚ)) (mn : MpMapping) :
    List (String × ℚ) :=
  let nid := mn.position.node_id
  let ab := mn.edit.foldl (fun a e => a + divQ (min e.from_length e.to_length) (nodeLen nid)) 0
  addAbundFirst nodes nid ab

/-- Lines 482-503: the `Alignment` built from one surviving tuple. -/
def alignOf (nodeLen : String → Nat) (sps : List Subpath) (t : PTuple) : Alignment :=
  let nodes := t.path.foldl (fun ns i => (sps.getD i default).mapping.foldl (mappingAbund nodeLen) ns) []
  let vars := t.path.foldl (fun vs i => vs ++ get_variants nodeLen (sps.getD i default)) []
  ⟨nodes, vars, t.len, t.score, divQ t.nmatch t.naligned⟩

/-- Lines 479-505: `final_paths`, one `Alignment` per tuple, grouped in the
insertion order of the surviving `current_paths` keys. -/
def finalPathsOf (nodeLen : String → Nat) (sps : List Subpath) (s : BfsState) : List Alignment :=
  s.cur.foldl (fun acc kl => acc ++ kl.2.map (alignOf nodeLen sps)) []

/-- Function `BFS(aln)` over a subpath array and the read length
`len(aln['sequence'])`, with explicit fuel for the while loop. -/
def BFS (fuel : Nat) (nodeLen : String → Nat) (sps : List Subpath) (target : Nat) : List Alignment :=
  finalPathsOf nodeLen sps (bfsLoop sps target fuel (bfsInit sps))

/-- The resolver `BFS` applied to a whole alignment record; only `aln['subpath']` and
`len(aln['sequence'])` are read — `aln['start']` is not consulted. -/
def BFS_aln (fuel : Nat) (nodeLen : String → Nat) (a : Aln) : List Alignment :=
  BFS fuel nodeLen a.subpath a.sequence.length

/-! ### `parse_vgmpmap` (lines 507-576) -/

/-- One line of the mapping JSON as consumed by `parse_vgmpmap`: `subpath`
is `none` when the record has no `"subpath"` key (unmapped read). -/
structure PRecord where
  name : String
  sequence : String
  subpath : Option (List Subpath)
deriving DecidableEq, Repr, Inhabited

/-- The state threaded through the record loop: the `reads` dictionary
(read name → read sequence → alignment list), the global `variants`
bookkeeping, and `previous_read`.  Python nests
`variants[node][pos][char] -> [read names]`; keying the same content by the
whole triple carries identical information. -/
structure ParseState where
  reads : List (String × List (String × List Alignment))
  variants : List (Variant × List String)
  previous_read : String
deriving DecidableEq, Repr, Inhabited

/-- Lines 558-561: append `who` to `variants[t0][t1][t2]`, creating the
entry when absent. -/
def recordVariant (vars : List (Variant × List String)) (who : String) (t : Variant) :
    List (Variant × List String) :=
  match lookupA vars t with
  | some l => setKeyA vars t (l ++ [who])
  | none => vars ++ [(t, [who])]

/-- Lines 553-561 (and the identical epilogue 567-574): record the variants
of the read group `who`, but only when every retained mate slot holds
exactly one alignment. -/
def flushGroup (st : ParseState) (who : String) : ParseState :=
  match lookupA st.reads who with
  | none => st
  | some grp =>
    if grp.all (fun sl => sl.2.length = 1) then
      let vars1 := grp.foldl
        (fun vs sl => ((sl.2.headD default).variants).foldl (fun vs2 t => recordVariant vs2 who t) vs)
        st.variants
      { st with variants := vars1 }
    else st

/-- One iteration of the record loop (lines 526-564).  A record without a
`subpath` key is skipped entirely (`continue`), leaving even
`previous_read` untouched.  A record whose `BFS` result is empty makes
Python raise an unhandled `IndexError` at `final_paths[0]` (line 538),
returned as `none` here. -/
def processRecord (fuel : Nat) (nodeLen : String → Nat) (thr : ℚ) (st : ParseState)
    (r : PRecord) : Option ParseState :=
  match r.subpath with
  | none => some st
  | some sps =>
    let final_paths := BFS fuel nodeLen sps r.sequence.length
    match final_paths with
    | [] => none
    | a0 :: _ =>
      let new_score := divQ a0.score r.sequence.length
      let reads1 :=
        match lookupA st.reads r.name with
        | none => st.reads ++ [(r.name, [(r.sequence, final_paths)])]
        | some grp =>
          match lookupA grp r.sequence with
          | none => setKeyA st.reads r.name (grp ++ [(r.sequence, final_paths)])
          | some olds =>
            let current_score := divQ (olds.headD default).score r.sequence.length
            if current_score < new_score then
              setKeyA st.reads r.name (setKeyA grp r.sequence final_paths)
            else if new_score = current_score then
              setKeyA st.reads r.name (setKeyA grp r.sequence (olds ++ final_paths))
            else st.reads
      let st1 := if thr ≤ new_score then { st with reads := reads1 } else st
      let st2 :=
        if r.name ≠ st1.previous_read ∧ hasKeyA st1.reads st1.previous_read then
          flushGroup st1 st1.previous_read
        else st1
      some { st2 with previous_read := r.name }

/-- The record loop folded over the whole stream. -/
def processAll (fuel : Nat) (nodeLen : String → Nat) (thr : ℚ) :
    ParseState → List PRecord → Option ParseState
  | st, [] => some st
  | st, r :: rest =>
    match processRecord fuel nodeLen thr st r with
    | none => none
    | some st1 => processAll fuel nodeLen thr st1 rest

/-- Function `parse_vgmpmap(json_file, thr)` (lines 507-576).  The epilogue
(lines 566-574) re-tests `aln['name'] != previous_read` with `aln` still
bound to the last parsed record.  (On an empty stream Python would raise
`NameError` at line 567; the state is returned unchanged here — no claim
touches that case.) -/
def parse_vgmpmap (fuel : Nat) (nodeLen : String → Nat) (thr : ℚ) (records : List PRecord) :
    Option ParseState :=
  match processAll fuel nodeLen thr ⟨[], [], ""⟩ records with
  | none => none
  | some st =>
    match records.getLast? with
    | none => some st
    | some lastRec =>
      if lastRec.name ≠ st.previous_read ∧ hasKeyA st.reads st.previous_read then
        some (flushGroup st st.previous_read)
      else some st

/-! ### The unique-match branch of `get_abundance` (lines 640-667) -/

/-- The per-gene record of `d_abund` used by that branch. -/
structure GeneAbund where
  uniq_count : ℚ
  nodes_abund : List (String × ℚ)
  nb_subst : List (Nat × Nat)
deriving DecidableEq, Repr, Inhabited

/-- The loop-carried state: `d_abund`, the function-scoped `path_seq`
variable (assigned only inside the gene-initialization block), and `max_c`. -/
structure AbundState where
  d_abund : List (String × GeneAbund)
  path_seq : String
  max_c : Nat
deriving DecidableEq, Repr, Inhabited

/-- Python's `str.split('-')` on the gene signature, written as structural
recursion over the characters (the pieces between `'-'` separators, empty
pieces included). -/
def splitDashAux : List Char → List Char → List String
  | [], acc => [String.mk acc.reverse]
  | ch :: rest, acc =>
    if ch = '-' then String.mk acc.reverse :: splitDashAux rest []
    else splitDashAux rest (ch :: acc)

/-- The split `gene.split('-')`. -/
def splitDash (s : String) : List String := splitDashAux s.data []

/-- Assignment `d_abund[gene]['nodes_abund'][n] = 0` for one node id (dict assignment,
so a repeated id is overwritten). -/
def insertZeroAbund (l : List (String × ℚ)) (n : String) : List (String × ℚ) :=
  if hasKeyA l n then setKeyA l n 0 else l ++ [(n, 0)]

/-- Update `d_abund[gene]['nodes_abund'][i[0]] += i[1]` — a node id absent from the
gene raises `KeyError` in Python; left unchanged here (claims only use
present ids). -/
def bumpAbund : List (String × ℚ) → String → ℚ → List (String × ℚ)
  | [], _, _ => []
  | (k, v) :: rest, nid, ab =>
    if k = nid then (k, v + ab) :: rest else (k, v) :: bumpAbund rest nid ab

/-- Lines 658-662: count the substitution variants of an alignment (those
whose position is not a string). -/
def countSubst (vars : List Variant) : Nat :=
  vars.countP (fun t => match t.2.1 with | VPos.pos _ => true | VPos.ins _ => false)

/-- Lines 641-667: process one read classified as a unique match to `gene`.
`pair` is the read sequence, `align` its single alignment, `nodeSeq` gives
each pangenome node's sequence.  `path_seq` is only (re)assigned inside the
`if gene not in d_abund` block; the subsequent
`d_abund[gene]["uniq_count"] += len(pair)/len(path_seq)` reads whatever the
variable currently holds. -/
def processUnique (nodeSeq : String → String) (s : AbundState) (gene pair : String)
    (align : Alignment) : AbundState :=
  let dp :=
    if hasKeyA s.d_abund gene then (s.d_abund, s.path_seq)
    else
      let init0 := (splitDash gene).foldl
        (fun acc n => (insertZeroAbund acc.1 n, acc.2 ++ nodeSeq n))
        (([] : List (String × ℚ)), "")
      (s.d_abund ++ [(gene, ⟨0, init0.1, []⟩)], init0.2)
  let d1 := dp.1
  let ps := dp.2
  let ga := (lookupA d1 gene).getD default
  let ga1 := { ga with uniq_count := ga.uniq_count + divQ pair.length ps.length }
  let na1 := align.nodes.foldl (fun na p => bumpAbund na p.1 p.2) ga1.nodes_abund
  let ga2 := { ga1 with nodes_abund := na1 }
  let c := countSubst align.variants
  let ns1 :=
    match lookupA ga2.nb_subst c with
    | some v => setKeyA ga2.nb_subst c (v + 1)
    | none => ga2.nb_subst ++ [(c, 1)]
  let ga3 := { ga2 with nb_subst := ns1 }
  ⟨setKeyA d1 gene ga3, ps, max s.max_c c⟩

/-- The unique-match branch folded over a stream of
`(gene, read sequence, alignment)` events, starting from the function's
initial state (`d_abund = {}`, `path_seq` unassigned — modelled empty —
and `max_c = 0`). -/
def runUniques (nodeSeq : String → String) (events : List (String × String × Alignment)) :
    AbundState :=
  events.foldl (fun s e => processUnique nodeSeq s e.1 e.2.1 e.2.2) ⟨[], "", 0⟩

/-! ### Predicates used by the best-path invariant -/

/-- All tuples in one `current_paths` bucket carry the same score. -/
def allSameScore (l : List PTuple) : Prop :=
  ∀ t1 ∈ l, ∀ t2 ∈ l, t1.score = t2.score

/-- Every bucket of `current_paths` is score-tied. -/
def curTied (s : BfsState) : Prop :=
  ∀ kl ∈ s.cur, allSameScore kl.2

/-! ### Concrete fixtures used by the claim theorems -/

/-- Node-length table for the two-sink example: every node has length 5. -/
def exLen5 : String → Nat := fun _ => 5

/-- Two root subpaths, both sinks (`next` absent), with scores 3 and 5:
two disconnected single-node paths of one alignment record. -/
def cexSps : List Subpath :=
  [⟨[⟨⟨"1", 0, false⟩, [⟨5, 5, none⟩]⟩], none, some 3⟩,
   ⟨[⟨⟨"2", 0, false⟩, [⟨5, 5, none⟩]⟩], none, some 5⟩]

/-- The record carrying `cexSps` with a length-5 read. -/
def cexRec : PRecord := ⟨"r", "NNNNN", some cexSps⟩

/-- A converging DAG: subpaths 0 and 1 (score 2 each) both feed subpath 2
(score 1), producing two tied paths ending at node 2. -/
def tieSps : List Subpath :=
  [⟨[⟨⟨"1", 0, false⟩, [⟨2, 2, none⟩]⟩], some [2], some 2⟩,
   ⟨[⟨⟨"2", 0, false⟩, [⟨2, 2, none⟩]⟩], some [2], some 2⟩,
   ⟨[⟨⟨"3", 0, false⟩, [⟨1, 1, none⟩]⟩], none, some 1⟩]

/-- Single mapped record: read "A" aligned to node "1" as a substitution,
score 1 (normalized score 1 ≥ 0.9). -/
def recR : PRecord :=
  ⟨"r", "A", some [⟨[⟨⟨"1", 0, false⟩, [⟨1, 1, some "A"⟩]⟩], none, some 1⟩]⟩

/-- A second mapped record under a different read name. -/
def recS : PRecord :=
  ⟨"s", "C", some [⟨[⟨⟨"2", 0, false⟩, [⟨1, 1, some "C"⟩]⟩], none, some 1⟩]⟩

/-- Node sequences for the stale-`path_seq` example: gene "1" is the single
node "1" (length 2), gene "2" the single node "2" (length 5). -/
def exSeq6 : String → String :=
  fun n => if n = "1" then "AC" else if n = "2" then "ACGTA" else ""

/-- A one-node alignment on gene "1" for a length-4 read. -/
def exAlign1 : Alignment := ⟨[("1", divQ 1 1)], [], 4, 4, divQ 1 1⟩

/-- A one-node alignment on gene "2" for a length-4 read. -/
def exAlign2 : Alignment := ⟨[("2", divQ 1 1)], [], 4, 4, divQ 1 1⟩

/-- Three unique-match events: gene "1", then gene "2", then gene "1" again.
The middle event reassigns the function-scoped `path_seq` to gene "2"'s
sequence. -/
def exEvents6 : List (String × String × Alignment) :=
  [("1", "ACGT", exAlign1), ("2", "ACGT", exAlign2), ("1", "ACGT", exAlign1)]

/-! ### Basic lemmas about the association-list helpers -/

theorem lookupA_append_right {α β : Type} [DecidableEq α] (l : List (α × β)) (k : α) (v : β)
    (h : lookupA l k = none) : lookupA (l ++ [(k, v)]) k = some v := by
  induction l with
  | nil => simp [lookupA]
  | cons p rest ih =>
    obtain ⟨k', v'⟩ := p
    by_cases hk : k' = k
    · subst hk; simp [lookupA] at h
    · simp only [List.cons_append, lookupA, hk, if_neg, not_false_iff] at h ⊢
      exact ih h

theorem lookupA_append_of_ne {α β : Type} [DecidableEq α] (l : List (α × β)) (p : α × β)
    (k : α) (h : ¬ p.1 = k) : lookupA (l ++ [p]) k = lookupA l k := by
  induction l with
  | nil =>
    obtain ⟨k', v'⟩ := p
    simp [lookupA, h]
  | cons q rest ih =>
    obtain ⟨k', v'⟩ := q
    by_cases hk : k' = k
    · subst hk; simp [lookupA]
    · simp [lookupA, hk, ih]

theorem mem_setKeyA {α β : Type} [DecidableEq α] (l : List (α × β)) (k : α) (v : β)
    (p : α × β) (h : p ∈ setKeyA l k v) : p = (k, v) ∨ p ∈ l := by
  induction l with
  | nil => simp [setKeyA] at h
  | cons q rest ih =>
    obtain ⟨k', v'⟩ := q
    by_cases hk : k' = k
    · subst hk
      simp only [setKeyA, if_true, eq_self_iff_true, List.mem_cons] at h
      rcases h with h | h
      · exact Or.inl h
      · exact Or.inr (List.mem_cons_of_mem _ h)
    · simp only [setKeyA, hk, if_false, List.mem_cons] at h
      rcases h with h | h
      · exact Or.inr (h ▸ List.mem_cons_self _ _)
      · rcases ih h with h' | h'
        · exact Or.inl h'
        · exact Or.inr (List.mem_cons_of_mem _ h')

theorem mem_eraseKeyA {α β : Type} [DecidableEq α] (l : List (α × β)) (k : α)
    (p : α × β) (h : p ∈ eraseKeyA l k) : p ∈ l := by
  induction l with
  | nil => simp [eraseKeyA] at h
  | cons q rest ih =>
    obtain ⟨k', v'⟩ := q
    by_cases hk : k' = k
    · subst hk
      simp only [eraseKeyA, if_true, eq_self_iff_true] at h
      exact List.mem_cons_of_mem _ h
    · simp only [eraseKeyA, hk, if_false, List.mem_cons] at h
      rcases h with h | h
      · exact h ▸ List.mem_cons_self _ _
      · exact List.mem_cons_of_mem _ (ih h)

theorem lookupA_mem {α β : Type} [DecidableEq α] (l : List (α × β)) (k : α) (v : β)
    (h : lookupA l k = some v) : (k, v) ∈ l := by
  induction l with
  | nil => simp [lookupA] at h
  | cons q rest ih =>
    obtain ⟨k', v'⟩ := q
    by_cases hk : k' = k
    · subst hk
      simp only [lookupA, if_true, eq_self_iff_true, Option.some.injEq] at h
      subst h; exact List.mem_cons_self _ _
    · simp only [lookupA, hk, if_false] at h
      exact List.mem_cons_of_mem _ (ih h)


/-! ### Lemmas about `edit_node` and `processLink` -/

theorem lookupA_updateNodeA (g : NodeDict) (key : String) (f : PNode → PNode) (k : String) :
    lookupA (updateNodeA g key f) k
      = if k = key then (lookupA g k).map f else lookupA g k := by
  induction g with
  | nil => by_cases h : k = key <;> simp [updateNodeA, lookupA, h]
  | cons q rest ih =>
    obtain ⟨k', n⟩ := q
    by_cases h1 : k' = key
    · subst h1
      by_cases h2 : k' = k
      · subst h2
        simp [updateNodeA, lookupA]
      · simp [updateNodeA, lookupA, h2, Ne.symm h2, ih]
    · by_cases h2 : k' = k
      · subst h2
        simp [updateNodeA, lookupA, h1]
      · simp [updateNodeA, lookupA, h1, h2, ih]

/-- Function `edit_node` invoked with the string `"add_prev"` matches none of the
three recognised edit types and falls through to `pass`. -/
theorem edit_node_add_prev (g : NodeDict) (key : String) (v : EditValue) :
    edit_node g "add_prev" key v = g := rfl

theorem edit_node_add_next_previous (g : NodeDict) (key v k : String) :
    (lookupA (edit_node g "add_next" key (.nodeId v)) k).map PNode.previous
      = (lookupA g k).map PNode.previous := by
  show (lookupA (updateNodeA g key (fun n => { n with next := n.next ++ [v] })) k).map PNode.previous
      = (lookupA g k).map PNode.previous
  rw [lookupA_updateNodeA]
  by_cases h : k = key
  · simp [h]
    cases lookupA g key <;> rfl
  · simp [h]


/-! ### Generic facts used below -/

theorem divQ_eq_div (a b : ℤ) : divQ a b = (a : ℚ) / (b : ℚ) := by
  unfold divQ
  exact Rat.divInt_eq_div a b

theorem lookupA_eq_none {α β : Type} [DecidableEq α] (l : List (α × β)) (x : α)
    (h : ∀ p ∈ l, p.1 ≠ x) : lookupA l x = none := by
  induction l with
  | nil => rfl
  | cons q rest ih =>
    obtain ⟨k, v⟩ := q
    have hk : k ≠ x := h (k, v) (List.mem_cons_self _ _)
    simp only [lookupA, hk, if_false]
    exact ih (fun p hp => h p (List.mem_cons_of_mem _ hp))

theorem setKeyA_append_fresh {α β : Type} [DecidableEq α] (l : List (α × β)) (k : α) (v w : β)
    (h : ∀ p ∈ l, p.1 ≠ k) : setKeyA (l ++ [(k, v)]) k w = l ++ [(k, w)] := by
  induction l with
  | nil => simp [setKeyA]
  | cons q rest ih =>
    obtain ⟨k', v'⟩ := q
    have hk : k' ≠ k := h (k', v') (List.mem_cons_self _ _)
    simp only [List.cons_append, setKeyA, hk, if_false, List.cons.injEq, true_and]
    exact ih (fun p hp => h p (List.mem_cons_of_mem _ hp))

/-! ### The initialization of `BFS` (claim C9) -/

theorem bfsInitFold_eq (sps : List Subpath) (n : Nat) :
    bfsInitFold sps n
      = ⟨List.range n, (List.range n).map (fun i => (i, [seedTuple i (sps.getD i default)]))⟩ := by
  induction n with
  | zero => rfl
  | succ m ih =>
    have hfresh : ∀ p ∈ (List.range m).map (fun i => (i, [seedTuple i (sps.getD i default)])),
        p.1 ≠ m := by
      intro p hp
      simp only [List.mem_map, List.mem_range] at hp
      obtain ⟨i, hi, rfl⟩ := hp
      exact Nat.ne_of_lt hi
    have hnone : lookupA ((List.range m).map (fun i => (i, [seedTuple i (sps.getD i default)]))) m
        = none := lookupA_eq_none _ _ hfresh
    unfold bfsInitFold at ih ⊢
    rw [List.range_succ, List.foldl_append, ih]
    simp only [List.foldl_cons, List.foldl_nil, hasKeyA, hnone, Option.isSome_none,
      Bool.false_eq_true, if_false]
    rw [lookupA_append_right _ _ _ hnone]
    simp only [Option.getD_some, List.nil_append]
    rw [setKeyA_append_fresh _ _ _ _ hfresh]
    rw [List.map_append]
    rfl

/-! ### The per-bucket score-tie invariant of `BFS` (claim C1) -/

theorem allSameScore_update (l : List PTuple) (u : PTuple) (h : allSameScore l) :
    allSameScore (updateChildList l u) := by
  cases l with
  | nil =>
    intro t1 h1 t2 h2
    simp only [updateChildList, List.mem_singleton] at h1 h2
    rw [h1, h2]
  | cons hd tl =>
    by_cases heq : u.score = hd.score
    · have hlt : ¬ hd.score < u.score := by rw [heq]; exact lt_irrefl _
      intro t1 h1 t2 h2
      simp only [updateChildList, if_neg hlt, if_pos heq, List.mem_append,
        List.mem_singleton] at h1 h2
      have key : ∀ t ∈ hd :: tl, t.score = hd.score :=
        fun t ht => h t ht hd (List.mem_cons_self _ _)
      have v1 : t1.score = hd.score := by
        rcases h1 with h1 | h1
        · exact key t1 h1
        · rw [h1, heq]
      have v2 : t2.score = hd.score := by
        rcases h2 with h2 | h2
        · exact key t2 h2
        · rw [h2, heq]
      rw [v1, v2]
    · by_cases hlt : hd.score < u.score
      · intro t1 h1 t2 h2
        simp only [updateChildList, if_pos hlt, if_neg heq, List.mem_singleton] at h1 h2
        rw [h1, h2]
      · intro t1 h1 t2 h2
        simp only [updateChildList, if_neg hlt, if_neg heq] at h1 h2
        exact h t1 h1 t2 h2

theorem allSameScore_foldl (parents : List PTuple) (ext : PTuple → PTuple) (l0 : List PTuple)
    (h : allSameScore l0) :
    allSameScore (parents.foldl (fun cl t => updateChildList cl (ext t)) l0) := by
  induction parents generalizing l0 with
  | nil => exact h
  | cons p ps ih => exact ih _ (allSameScore_update _ _ h)

theorem allSameScore_nil : allSameScore [] := by
  intro t1 h1
  simp at h1

theorem curTied_lookup (s : BfsState) (h : curTied s) (k : Nat) :
    allSameScore ((lookupA s.cur k).getD []) := by
  cases hk : lookupA s.cur k with
  | none => exact allSameScore_nil
  | some l => exact h (k, l) (lookupA_mem _ _ _ hk)

theorem curTied_relaxChild (sps : List Subpath) (c : Nat) (s : BfsState) (child : Nat)
    (h : curTied s) : curTied (relaxChild sps c s child) := by
  intro kl hkl
  simp only [relaxChild] at hkl
  have hbase : allSameScore
      ((lookupA (if hasKeyA s.cur child then s.cur else s.cur ++ [(child, [])]) child).getD []) := by
    by_cases hk : hasKeyA s.cur child
    · rw [if_pos hk]
      exact curTied_lookup s h child
    · rw [if_neg hk]
      have hn : lookupA s.cur child = none := by
        cases hx : lookupA s.cur child with
        | none => rfl
        | some l => simp [hasKeyA, hx] at hk
      rw [lookupA_append_right _ _ _ hn]
      exact allSameScore_nil
  rcases mem_setKeyA _ _ _ _ hkl with hnew | hold
  · rw [hnew]
    exact allSameScore_foldl _ _ _ hbase
  · by_cases hk : hasKeyA s.cur child
    · rw [if_pos hk] at hold
      exact h kl hold
    · rw [if_neg hk] at hold
      rcases List.mem_append.mp hold with hold | hold
      · exact h kl hold
      · rw [List.mem_singleton.mp hold]
        exact allSameScore_nil

theorem curTied_foldl_relax (sps : List Subpath) (c : Nat) (children : List Nat) (s : BfsState)
    (h : curTied s) : curTied (children.foldl (relaxChild sps c) s) := by
  induction children generalizing s with
  | nil => exact h
  | cons x xs ih => exact ih _ (curTied_relaxChild _ _ _ _ h)

theorem curTied_processCurrent (sps : List Subpath) (target : Nat) (c : Nat) (s : BfsState)
    (h : curTied s) : curTied (processCurrent sps target c s) := by
  unfold processCurrent
  dsimp only
  split
  · exact h
  · intro kl hkl
    exact curTied_foldl_relax sps c _ s h kl (mem_eraseKeyA _ _ _ hkl)

theorem curTied_bfsLoop (sps : List Subpath) (target fuel : Nat) (s : BfsState)
    (h : curTied s) : curTied (bfsLoop sps target fuel s) := by
  induction fuel generalizing s with
  | zero => exact h
  | succ m ih =>
    rw [bfsLoop]
    cases hq : s.queue with
    | nil => exact h
    | cons c rest =>
      exact ih _ (curTied_processCurrent sps target c ⟨rest, s.cur⟩ (fun kl hkl => h kl hkl))

theorem curTied_bfsInit (sps : List Subpath) : curTied (bfsInit sps) := by
  rw [bfsInit, bfsInitFold_eq]
  intro kl hkl
  simp only [List.mem_map] at hkl
  obtain ⟨i, _, rfl⟩ := hkl
  intro t1 h1 t2 h2
  simp only [List.mem_singleton] at h1 h2
  rw [h1, h2]

/-! ### Claim theorems -/

/-- C9: `BFS` seeds every subpath index `0 .. len(subpath)-1` as a root of
the resolution — after the initialization loop the queue is exactly
`range(len(subpath))` and `current_paths` maps each index to its own seed
tuple — and the record's declared `start` list has no influence on the
result, so mid-DAG entries enter the frontier and compete on score exactly
like true roots. -/
theorem bfs_seeds_every_subpath_index (a : Aln) :
    (bfsInit a.subpath).queue = List.range a.subpath.length
    ∧ (bfsInit a.subpath).cur
        = (List.range a.subpath.length).map
            (fun i => (i, [seedTuple i (a.subpath.getD i default)]))
    ∧ ∀ (fuel : Nat) (nodeLen : String → Nat) (s1 s2 : List Nat),
        BFS_aln fuel nodeLen ⟨a.name, a.sequence, a.subpath, s1⟩
          = BFS_aln fuel nodeLen ⟨a.name, a.sequence, a.subpath, s2⟩ := by
  refine ⟨?_, ?_, ?_⟩
  · rw [bfsInit, bfsInitFold_eq]
  · rw [bfsInit, bfsInitFold_eq]
  · intro fuel nodeLen s1 s2
    rfl

/-- C1 counterexample: on a subpath DAG with two sinks of scores 3 and 5,
`BFS` returns both alignments, so an `Alignment` with a strictly lower score
than another returned `Alignment` appears in the output. -/
theorem bfs_two_sinks_differing_scores :
    (BFS 10 exLen5 cexSps 5).map Alignment.score = [3, 5] ∧ (3 : ℤ) < 5 :=
  ⟨by decide, by decide⟩

/-- C1 (amended): the best-path pruning is per end node, not global — for
every bucket of the surviving `current_paths`, all stored paths (and hence
the `Alignment`s generated from that bucket) carry one and the same score;
buckets ending at different nodes are all returned, whatever their relative
scores. -/
theorem bfs_scores_tied_per_end_node (nodeLen : String → Nat) (sps : List Subpath)
    (target fuel : Nat) :
    ∀ kl ∈ (bfsLoop sps target fuel (bfsInit sps)).cur, ∀ t1 ∈ kl.2, ∀ t2 ∈ kl.2,
      (alignOf nodeLen sps t1).score = (alignOf nodeLen sps t2).score := by
  intro kl hkl t1 h1 t2 h2
  show t1.score = t2.score
  exact curTied_bfsLoop sps target fuel (bfsInit sps) (curTied_bfsInit sps) kl hkl t1 h1 t2 h2

/-- Witness for `bfs_scores_tied_per_end_node` on the converging DAG
`tieSps`: the surviving bucket at node 2 holds the two tied paths `[0, 2]`
and `[1, 2]`, and their alignments score equally. -/
theorem bfs_scores_tied_per_end_node_witness :
    ((2 : Nat), [(⟨[0, 2], 3, 3, 3, 3⟩ : PTuple), ⟨[1, 2], 3, 3, 3, 3⟩])
        ∈ (bfsLoop tieSps 5 10 (bfsInit tieSps)).cur
    ∧ (alignOf exLen5 tieSps ⟨[0, 2], 3, 3, 3, 3⟩).score
        = (alignOf exLen5 tieSps ⟨[1, 2], 3, 3, 3, 3⟩).score := by
  constructor
  · decide
  · exact bfs_scores_tied_per_end_node exLen5 tieSps 5 10
      ((2 : Nat), [(⟨[0, 2], 3, 3, 3, 3⟩ : PTuple), ⟨[1, 2], 3, 3, 3, 3⟩]) (by decide)
      ⟨[0, 2], 3, 3, 3, 3⟩ (by decide) ⟨[1, 2], 3, 3, 3, 3⟩ (by decide)

/-- C2: processing an `L` line never touches any node's `previous` list —
the second `edit_node` call passes the string `"add_prev"`, which matches
none of the recognised edit types and falls into `pass` — while the `next`
side is recorded; concretely, linking fresh nodes "1" and "2" leaves node
"2" with an empty `previous`. -/
theorem parse_graph_link_previous_unchanged :
    (∀ (g : NodeDict) (id1 id2 k : String),
      (lookupA (processLink g id1 id2) k).map PNode.previous
        = (lookupA g k).map PNode.previous)
    ∧ processLink [("1", ⟨"1", "A", [], [], []⟩), ("2", ⟨"2", "C", [], [], []⟩)] "1" "2"
        = [("1", ⟨"1", "A", [], [], ["2"]⟩), ("2", ⟨"2", "C", [], [], []⟩)] := by
  constructor
  · intro g id1 id2 k
    unfold processLink
    cases h1 : lookupA g id1 with
    | none => rfl
    | some node1 =>
      cases h2 : lookupA g id2 with
      | none => rfl
      | some node2 =>
        dsimp only
        rw [edit_node_add_prev, ite_self]
        by_cases hn : node2.ID ∉ node1.next
        · rw [if_pos hn]
          exact edit_node_add_next_previous g node1.ID node2.ID k
        · rw [if_neg hn]
  · decide

/-- C3: with a single mapped record (read "r", one alignment, one
substitution variant) the final read group is never flushed — after the
loop `previous_read` already equals the last record's name, so the
end-of-stream re-check `aln['name'] != previous_read` is false and the
returned `variants` mapping is empty; a second record under a new name "s"
flushes "r" mid-stream (showing the bookkeeping works there) but leaves the
final group "s" unflushed. -/
theorem parse_vgmpmap_final_group_not_flushed :
    (parse_vgmpmap 10 (fun _ => 1) (divQ 9 10) [recR]).map (fun st => st.variants) = some []
    ∧ (parse_vgmpmap 10 (fun _ => 1) (divQ 9 10) [recR, recS]).map (fun st => st.variants)
        = some [(("1", VPos.pos 0, "A"), ["r"])] :=
  ⟨by decide, by decide⟩

/-- C4 counterexample: with no existing gene, the path `["1", "2"]` creates
its gene under the reverse-joined key `"2-1"`, not the forward-joined
`"1-2"`. -/
theorem d_genes_new_gene_reverse_key_cex :
    d_genes_step [] ["1", "2"] "p" = [("2-1", ["p"])] ∧ ("2-1" : String) ≠ "1-2" :=
  ⟨by decide, by decide⟩

/-- C4 (amended): when neither the forward-joined nor the reverse-joined
signature matches an existing gene, the new gene is keyed by the
reverse-joined signature (the Python code reassigns `nodelist` before the
final `else`). -/
theorem d_genes_new_gene_keyed_by_reverse (d : List (String × List String))
    (nodes : List String) (cpath : String)
    (h1 : lookupA d (joinDash nodes) = none)
    (h2 : lookupA d (joinDash nodes.reverse) = none) :
    d_genes_step d nodes cpath = d ++ [(joinDash nodes.reverse, [cpath])] := by
  unfold d_genes_step
  simp only [h1, h2]

/-- Witness for `d_genes_new_gene_keyed_by_reverse` at a concrete dictionary
and path. -/
theorem d_genes_new_gene_keyed_by_reverse_witness :
    lookupA [("x", ["q"])] (joinDash ["1", "2"]) = none
    ∧ lookupA [("x", ["q"])] (joinDash (["1", "2"] : List String).reverse) = none
    ∧ d_genes_step [("x", ["q"])] ["1", "2"] "p" = [("x", ["q"]), ("2-1", ["p"])] :=
  ⟨by decide, by decide,
    (d_genes_new_gene_keyed_by_reverse [("x", ["q"])] ["1", "2"] "p"
      (by decide) (by decide)).trans (by decide)⟩

/-! ### Substitution emission (claim C5) -/

theorem substEmit_chars (nid : String) (rev : Bool) :
    ∀ (cs : List Char) (pos : Int),
      (substEmit nid rev cs pos).map (fun v => v.2.2) = cs.map (fun c => String.mk [c]) := by
  intro cs
  induction cs with
  | nil => intro pos; rfl
  | cons c cs ih =>
    intro pos
    simp only [substEmit, List.map_cons]
    rw [ih]

theorem substEmit_positions (nid : String) (rev : Bool) :
    ∀ (cs : List Char) (pos : Int),
      (substEmit nid rev cs pos).map (fun v => v.2.1)
        = (List.range cs.length).map
            (fun i : Nat => VPos.pos (pos + (if rev then -(i : Int) else (i : Int)))) := by
  intro cs
  induction cs with
  | nil => intro pos; rfl
  | cons c cs ih =>
    intro pos
    rw [List.length_cons, List.range_succ_eq_map, List.map_cons, List.map_map]
    show VPos.pos pos :: (substEmit nid rev cs (if rev then pos - 1 else pos + 1)).map
        (fun v => v.2.1) = _
    rw [ih]
    congr 1
    · congr 1
      cases rev
      · norm_num
      · norm_num
    · refine List.map_congr_left ?_
      intro i _
      simp only [Function.comp_apply]
      congr 1
      cases rev
      · simp only [Bool.false_eq_true, if_false]
        push_cast
        ring
      · simp only [if_true]
        push_cast
        ring

/-- C5 counterexample: a reverse-orientation substitution of "A" is emitted
as "A" itself, not as its reverse complement "T". -/
theorem get_variants_reverse_subst_not_complemented :
    get_variants (fun _ => 1) ⟨[⟨⟨"1", 0, true⟩, [⟨1, 1, some "A"⟩]⟩], none, none⟩
      = [("1", VPos.pos 0, "A")]
    ∧ reverseComplement "A" = "T"
    ∧ ("A" : String) ≠ "T" :=
  ⟨by decide, by decide, by decide⟩

/-- C5 (amended): a substitution edit (equal consumed lengths, sequence
present) emits one variant per character at the running cursor, the cursor
moving by one per character (down when reverse); in BOTH orientations the
character is emitted unchanged (the reverse complement is applied only in
the insertion branch of the source). -/
theorem get_variants_subst_emission (nodeLen : String → Nat) (nid : String) (o : Nat)
    (rev : Bool) (f : Nat) (s : String) :
    get_variants nodeLen ⟨[⟨⟨nid, o, rev⟩, [⟨f, f, some s⟩]⟩], none, none⟩
      = substEmit nid rev s.data
          (if rev then (nodeLen nid : Int) - 1 - (o : Int) else (o : Int))
    ∧ (∀ (cs : List Char) (pos : Int),
        (substEmit nid rev cs pos).map (fun v => v.2.2) = cs.map (fun c => String.mk [c]))
    ∧ (∀ (cs : List Char) (pos : Int),
        (substEmit nid rev cs pos).map (fun v => v.2.1)
          = (List.range cs.length).map
              (fun i : Nat => VPos.pos (pos + (if rev then -(i : Int) else (i : Int))))) := by
  refine ⟨?_, substEmit_chars nid rev, substEmit_positions nid rev⟩
  simp [get_variants, nodeVars, editVar]

/-- C6: the per-gene unique-count increment is NOT a function of the read
and gene alone — it divides by the stale `path_seq` variable.  With gene "1"
(total node length 2) and gene "2" (total node length 5), the event stream
gene "1", gene "2", gene "1" on length-4 reads leaves gene "1" with
`4/2 + 4/5 = 14/5`: the third read was normalized by gene "2"'s
length.  The claim's value would be `4/2 + 4/2 = 4`. -/
theorem get_abundance_stale_path_seq :
    (lookupA (runUniques exSeq6 exEvents6).d_abund "1").map GeneAbund.uniq_count
      = some (divQ 14 5)
    ∧ divQ 14 5 ≠ divQ 4 2 + divQ 4 2 := by
  constructor
  · have h : (lookupA (runUniques exSeq6 exEvents6).d_abund "1").map GeneAbund.uniq_count
        = some ((0 : ℚ) + divQ 4 2 + divQ 4 5) := rfl
    rw [h]
    simp only [Option.some.injEq, divQ_eq_div]
    norm_num
  · simp only [divQ_eq_div]
    norm_num

/-- C7 counterexample: on the single sample `1/2` with copy count 1, the
code's `int(a)/int(b)` truncation yields final abundance 0, while the exact
(untruncated) division of the claim yields `1/2`. -/
theorem finalize_strain_truncation_cex :
    (finalizeStrain [divQ 1 2] [1]).1 = 0
    ∧ (finalizeStrain_spec [divQ 1 2] [1]).1 = divQ 1 2
    ∧ divQ 1 2 ≠ 0 := by
  refine ⟨?_, ?_, by decide⟩
  · have hp : pyInt (divQ 1 2) = 0 := by decide
    simp only [finalizeStrain, List.zip_cons_cons, List.zip_nil_right, List.map_cons,
      List.map_nil, hp]
    norm_num [npMeanQ, divQ_eq_div]
  · simp only [finalizeStrain_spec, List.zip_cons_cons, List.zip_nil_right, List.map_cons,
      List.map_nil]
    rw [divQ_eq_div]
    norm_num [npMeanQ]

/-- C7 (amended): each accumulated abundance sample is first truncated
toward zero to an integer by `int(...)`, and only then divided (exactly) by
its copy count; the record's final abundance and (squared) std are the mean
and population variance over those truncated-then-normalized quotients. -/
theorem finalize_strain_truncates_samples (abund : List ℚ) (nb_copy : List ℤ) :
    finalizeStrain abund nb_copy
      = finalizeStrain_spec (abund.map (fun q => ((pyInt q : ℤ) : ℚ))) nb_copy := by
  unfold finalizeStrain finalizeStrain_spec
  rw [List.zip_map_left, List.map_map]
  have h : ∀ p ∈ abund.zip nb_copy,
      divQ (pyInt p.1) p.2
        = ((fun p : ℚ × ℤ => p.1 / ((p.2 : ℚ))) ∘ Prod.map (fun q => ((pyInt q : ℤ) : ℚ)) id) p := by
    intro p _
    simp only [Function.comp_apply, Prod.map, id_eq]
    exact divQ_eq_div _ _
  rw [List.map_congr_left h]

/-! ### Threshold filtering (claim C8) and the empty-subpath crash (claim C10) -/

theorem flushGroup_reads (st : ParseState) (w : String) : (flushGroup st w).reads = st.reads := by
  unfold flushGroup
  cases lookupA st.reads w with
  | none => rfl
  | some grp =>
    dsimp only
    split
    · rfl
    · rfl

theorem processRecord_reads_fresh (fuel : Nat) (nodeLen : String → Nat) (thr : ℚ)
    (st : ParseState) (r : PRecord) (sps : List Subpath) (a : Alignment) (rest : List Alignment)
    (h1 : r.subpath = some sps)
    (hbfs : BFS fuel nodeLen sps r.sequence.length = a :: rest)
    (h3 : lookupA st.reads r.name = none) :
    ∃ st', processRecord fuel nodeLen thr st r = some st'
      ∧ st'.reads = (if thr ≤ divQ a.score r.sequence.length
          then st.reads ++ [(r.name, [(r.sequence, a :: rest)])] else st.reads) := by
  simp only [processRecord, h1, hbfs, h3]
  refine ⟨_, rfl, ?_⟩
  dsimp only
  split
  · split
    · rw [flushGroup_reads]
    · rfl
  · split
    · rw [flushGroup_reads]
    · rfl

/-- C8 (amended): for a mapped record opening a fresh read/mate slot, the
slot is retained if and only if the normalized score of the FIRST `Alignment`
returned by `BFS` (`final_paths[0].score / len(sequence)`) reaches the
threshold; equality retains, strictly below leaves the slot entirely absent.
(The first returned alignment need not be the best one — see the
counterexample `threshold_uses_first_alignment_cex`.) -/
theorem threshold_retains_iff_first_score (fuel : Nat) (nodeLen : String → Nat) (thr : ℚ)
    (st : ParseState) (r : PRecord) (sps : List Subpath) (s0 : ℤ) (srest : List ℤ)
    (h1 : r.subpath = some sps)
    (h2 : (BFS fuel nodeLen sps r.sequence.length).map Alignment.score = s0 :: srest)
    (h3 : lookupA st.reads r.name = none) :
    ∃ st', processRecord fuel nodeLen thr st r = some st'
      ∧ ((lookupA st'.reads r.name).isSome ↔ thr ≤ divQ s0 r.sequence.length) := by
  cases hbfs : BFS fuel nodeLen sps r.sequence.length with
  | nil =>
    rw [hbfs] at h2
    simp at h2
  | cons a rest =>
    rw [hbfs] at h2
    simp only [List.map_cons, List.cons.injEq] at h2
    obtain ⟨hs, _⟩ := h2
    obtain ⟨st', hpr, hre⟩ :=
      processRecord_reads_fresh fuel nodeLen thr st r sps a rest h1 hbfs h3
    refine ⟨st', hpr, ?_⟩
    rw [hre, hs]
    by_cases hthr : thr ≤ divQ s0 r.sequence.length
    · rw [if_pos hthr]
      simp [lookupA_append_right _ _ _ h3, hthr]
    · rw [if_neg hthr]
      simp [h3, hthr]

/-- Witness for `threshold_retains_iff_first_score`: the single-subpath
record `recR` (score 1, read length 1) against threshold 9/10. -/
theorem threshold_retains_iff_first_score_witness :
    ((BFS 10 (fun _ => 1) [⟨[⟨⟨"1", 0, false⟩, [⟨1, 1, some "A"⟩]⟩], none, some 1⟩]
        (String.length "A")).map Alignment.score = [1])
    ∧ ∃ st', processRecord 10 (fun _ => 1) (divQ 9 10) ⟨[], [], ""⟩ recR = some st'
        ∧ ((lookupA st'.reads "r").isSome ↔ divQ 9 10 ≤ divQ 1 (String.length "A")) := by
  constructor
  · decide
  · exact threshold_retains_iff_first_score 10 (fun _ => 1) (divQ 9 10) ⟨[], [], ""⟩ recR
      [⟨[⟨⟨"1", 0, false⟩, [⟨1, 1, some "A"⟩]⟩], none, some 1⟩] 1 [] rfl (by decide) rfl

/-- C8 counterexample: on `cexRec` the `BFS` output is `[score 3, score 5]`,
the best normalized score is `5/5 = 1 ≥ 4/5`, yet the record is dropped
entirely (no slot is created) because the code thresholds
`final_paths[0].score / len = 3/5 < 4/5`. -/
theorem threshold_uses_first_alignment_cex :
    (BFS 10 exLen5 cexSps 5).map Alignment.score = [3, 5]
    ∧ divQ 4 5 ≤ divQ 5 5
    ∧ (processRecord 10 exLen5 (divQ 4 5) ⟨[], [], ""⟩ cexRec).map (fun st => st.reads)
        = some [] :=
  ⟨by decide, by decide, by decide⟩

/-- C10: a record whose `subpath` key holds an empty array makes `BFS`
return an empty alignment list and the streaming parser then indexes
`final_paths[0]`, an unhandled `IndexError` (`none` here) that aborts the
pipeline; a record with no `subpath` key at all is skipped with the state
unchanged. -/
theorem empty_subpath_crashes_parse (fuel : Nat) (nodeLen : String → Nat) (thr : ℚ)
    (st : ParseState) (r : PRecord) :
    (r.subpath = some [] →
      BFS fuel nodeLen [] r.sequence.length = []
      ∧ processRecord fuel nodeLen thr st r = none)
    ∧ (r.subpath = none → processRecord fuel nodeLen thr st r = some st) := by
  constructor
  · intro h
    have hb : BFS fuel nodeLen [] r.sequence.length = [] := by
      cases fuel <;> rfl
    refine ⟨hb, ?_⟩
    simp only [processRecord, h, hb]
  · intro h
    simp only [processRecord, h]

/-- Witness for `empty_subpath_crashes_parse` at concrete records. -/
theorem empty_subpath_crashes_parse_witness :
    BFS 5 (fun _ => 1) [] (String.length "A") = []
    ∧ processRecord 5 (fun _ => 1) (divQ 9 10) ⟨[], [], ""⟩ ⟨"e", "A", some []⟩ = none
    ∧ processRecord 5 (fun _ => 1) (divQ 9 10) ⟨[], [], ""⟩ ⟨"u", "A", none⟩ = some ⟨[], [], ""⟩ := by
  refine ⟨?_, ?_, ?_⟩
  · exact ((empty_subpath_crashes_parse 5 (fun _ => 1) (divQ 9 10) ⟨[], [], ""⟩
      ⟨"e", "A", some []⟩).1 rfl).1
  · exact ((empty_subpath_crashes_parse 5 (fun _ => 1) (divQ 9 10) ⟨[], [], ""⟩
      ⟨"e", "A", some []⟩).1 rfl).2
  · exact (empty_subpath_crashes_parse 5 (fun _ => 1) (divQ 9 10) ⟨[], [], ""⟩
      ⟨"u", "A", none⟩).2 rfl

end StrainFLAIR
